import Mathlib

/-!
Verification of the `idle-ledger` core: a shallow embedding in Lean 4 of the
interval state machine (`idle_ledger/engine/blocks.py`), the state classifier
(`idle_ledger/engine/state.py`), the daily journal persistence
(`idle_ledger/store/journal.py`) and the config loader
(`idle_ledger/store/config.py`), together with proofs of the specified
properties.

Modelling conventions:
* `datetime` values are modelled as `Int` (seconds).  Subtraction and
  comparison of datetimes map to `Int` operations; `isoformat` /
  `fromisoformat` round-trip faithfully on such values, so serialisation of a
  datetime is modelled as the identity on the underlying `Int`.
* Python `None` becomes `Option.none`; `x or y` on an optional becomes
  `Option.getD`; truthiness of a JSON value is modelled explicitly.
* Mutating methods become functions `BlockManager → ... → BlockManager`.
* Python calls that can raise an uncaught exception return `Except PyError _`;
  `Except.error e` models the exception `e` escaping the function.
* Wall-clock reads (`datetime.now(...)`) become an explicit `now` parameter.
-/

namespace IdleLedger

/-- States of the ledger, from `engine/types.py` (`class State(Enum)`). -/
inductive State where
  | ACTIVITY
  | BREAK
  deriving DecidableEq, Repr

/-- Enum `.value` of a `State` ("activity" / "break"), from `engine/types.py`. -/
def State.value : State → String
  | State.ACTIVITY => "activity"
  | State.BREAK => "break"

/-- Block record from `engine/types.py`: a typed interval with a start and an
optional end (`None` while the block is open).  The Python field `end` is the
Lean field `end_` (`end` is a Lean keyword). -/
structure Block where
  type : State
  start : Int
  end_ : Option Int
  deriving DecidableEq, Repr

/-- Configuration fields of `engine/types.py` `Config` that the engine logic
reads.  `poll_seconds` (a float consumed only by the excluded driver loop) is
not needed by any verified operation and is omitted from the engine model; the
Python-object view of `Config` used by the config-file layer is modelled
separately below. -/
structure Config where
  threshold_seconds : Int
  treat_inhibitor_as_activity : Bool
  journal_heartbeat_seconds : Int
  deriving DecidableEq, Repr

/-- Provider snapshot fields read by the classifier, from `engine/types.py`
`Snapshot` (`now_wall`, `now_mono` and `provider_meta` are never read by the
classifier and are omitted). -/
structure Snapshot where
  idle_seconds : Option Int
  locked : Option Bool
  inhibited : Option Bool
  deriving DecidableEq, Repr

/-- Classifier from `engine/state.py` `classify_state`, line for line:
locked first, then the fail-open unknown-idle branch, then the inclusive
threshold comparison, then the inhibitor override, else BREAK. -/
def classify_state (snapshot : Snapshot) (config : Config) : State :=
  if snapshot.locked = some true then
    State.BREAK
  else
    match snapshot.idle_seconds with
    | none => State.ACTIVITY
    | some idle =>
      if idle ≤ config.threshold_seconds then
        State.ACTIVITY
      else if config.treat_inhibitor_as_activity = true ∧ snapshot.inhibited = some true then
        State.ACTIVITY
      else
        State.BREAK

/-- Totals record from `engine/blocks.py`. -/
structure Totals where
  activity_seconds : Int
  break_seconds : Int
  deriving DecidableEq, Repr

/-- BlockManager state from `engine/blocks.py`: the ordered closed-block
history `blocks` and the optional open block `_current_block`. -/
structure BlockManager where
  blocks : List Block
  current_block : Option Block
  deriving DecidableEq, Repr

/-- Fresh manager, from `BlockManager.__init__`. -/
def BlockManager.empty : BlockManager :=
  { blocks := [], current_block := none }

/-- Accessor `BlockManager.get_current_block`. -/
def BlockManager.get_current_block (m : BlockManager) : Option Block :=
  m.current_block

/-- Accessor `BlockManager.get_current_state`: the open block's type when one
exists, else the last history block's type, else `None`. -/
def BlockManager.get_current_state (m : BlockManager) : Option State :=
  match m.current_block with
  | some cur => some cur.type
  | none =>
    match m.blocks.getLast? with
    | some b => some b.type
    | none => none

/-- Method `BlockManager.close_current`: sets the open block's end, appends it
to the history and clears the open slot; a no-op returning `None` when there
is no open block.  Returns the new manager state together with the method's
Python return value. -/
def BlockManager.close_current (m : BlockManager) (e : Int) :
    BlockManager × Option Block :=
  match m.current_block with
  | none => (m, none)
  | some cur =>
    let closed : Block := { cur with end_ := some e }
    ({ blocks := m.blocks ++ [closed], current_block := none }, some closed)

/-- Method `BlockManager.open_new`. -/
def BlockManager.open_new (m : BlockManager) (state : State) (start : Int) :
    BlockManager :=
  { m with current_block := some { type := state, start := start, end_ := none } }

/-- Method `BlockManager.load`: wholesale replacement of the internal state. -/
def BlockManager.load (m : BlockManager) (blocks : List Block)
    (current_block : Option Block) : BlockManager :=
  let _ := m
  { blocks := blocks, current_block := current_block }

/-- Method `BlockManager.transition` from `engine/blocks.py`.  The Python
`if threshold_subtract and ...` guard: a `datetime` is always truthy, so the
guard holds exactly when the argument is not `None` and the transition is
ACTIVITY→BREAK.  The two sequential clamps of the source (`end_time` raised to
`current.start`, then lowered to `now`) are kept as written. -/
def BlockManager.transition (m : BlockManager) (new_state : State) (now : Int)
    (threshold_subtract : Option Int) : BlockManager :=
  match m.current_block with
  | none =>
    { m with current_block := some { type := new_state, start := now, end_ := none } }
  | some cur =>
    if cur.type = new_state then
      m
    else
      let boundary : Int :=
        match threshold_subtract with
        | some t =>
          if cur.type = State.ACTIVITY ∧ new_state = State.BREAK then
            let e0 := t
            let e1 := if e0 < cur.start then cur.start else e0
            let e2 := if e1 > now then now else e1
            e2
          else now
        | none => now
      { blocks := m.blocks ++ [{ cur with end_ := some boundary }],
        current_block := some { type := new_state, start := boundary, end_ := none } }

/-- Duration of one block as computed inside `BlockManager.get_totals`:
`max(0, int((end - start).total_seconds()))`, with a missing end replaced by
the current wall time. -/
def blockDuration (now : Int) (b : Block) : Int :=
  max 0 (b.end_.getD now - b.start)

/-- Accumulation step of the `get_totals` loop: bucket one block's duration by
its type. -/
def totalsStep (now : Int) (acc : Totals) (b : Block) : Totals :=
  if b.type = State.ACTIVITY then
    { acc with activity_seconds := acc.activity_seconds + blockDuration now b }
  else
    { acc with break_seconds := acc.break_seconds + blockDuration now b }

/-- Method `BlockManager.get_totals`: fold the history, then add the open
block if present.  The source reads the wall clock for blocks without an end;
that clock value is the explicit `now` parameter here. -/
def BlockManager.get_totals (m : BlockManager) (now : Int) : Totals :=
  let base := m.blocks.foldl (totalsStep now) { activity_seconds := 0, break_seconds := 0 }
  match m.current_block with
  | none => base
  | some cur => totalsStep now base cur

end IdleLedger

namespace IdleLedger

/-! ## Specification-side definitions

These follow the wording of the specification (not the source) and are
compared against the source embeddings above. -/

/-- Classifier as the specification words it: a first-match rule list —
locked wins, unknown idle is ACTIVITY, idle at or below threshold is
ACTIVITY, idle above threshold with the inhibitor override enabled and an
inhibitor present is ACTIVITY, otherwise BREAK. -/
def classifySpec (snapshot : Snapshot) (config : Config) : State :=
  if snapshot.locked = some true then State.BREAK
  else if snapshot.idle_seconds = none then State.ACTIVITY
  else if snapshot.idle_seconds.getD 0 ≤ config.threshold_seconds then State.ACTIVITY
  else if snapshot.idle_seconds.getD 0 > config.threshold_seconds ∧
      config.treat_inhibitor_as_activity = true ∧ snapshot.inhibited = some true then
    State.ACTIVITY
  else State.BREAK

/-- Closing boundary as the specification words it: for an ACTIVITY→BREAK
transition with a supplied override `t`, the clamp `min (max t start) now`;
in every other case, `now`. -/
def specBoundary (threshold_subtract : Option Int) (old_type new_state : State)
    (start now : Int) : Int :=
  match threshold_subtract with
  | some t =>
    if old_type = State.ACTIVITY ∧ new_state = State.BREAK then
      min (max t start) now
    else now
  | none => now

end IdleLedger

namespace IdleLedger

/-! ## Claims about the classifier and simple BlockManager operations -/

/-- C2: `classify_state` is total and pure (it is a Lean function), and it
agrees with the specification's first-match rule list on every snapshot and
config; in particular idle exactly at the threshold is ACTIVITY, one second
above it (unlocked, uninhibited) is BREAK, and a locked snapshot is BREAK
even with zero idle. -/
theorem classify_state_matches_spec :
    (∀ (s : Snapshot) (c : Config), classify_state s c = classifySpec s c) ∧
    classify_state { idle_seconds := some 300, locked := some false, inhibited := some false }
      { threshold_seconds := 300, treat_inhibitor_as_activity := true,
        journal_heartbeat_seconds := 30 } = State.ACTIVITY ∧
    classify_state { idle_seconds := some 301, locked := some false, inhibited := some false }
      { threshold_seconds := 300, treat_inhibitor_as_activity := true,
        journal_heartbeat_seconds := 30 } = State.BREAK ∧
    classify_state { idle_seconds := some 0, locked := some true, inhibited := some false }
      { threshold_seconds := 300, treat_inhibitor_as_activity := true,
        journal_heartbeat_seconds := 30 } = State.BREAK := by
  refine ⟨fun s c => ?_, by decide, by decide, by decide⟩
  rcases s with ⟨idle, locked, inhibited⟩
  unfold classify_state classifySpec
  by_cases hl : locked = some true
  · simp [hl]
  · rcases idle with _ | i
    · simp [hl]
    · simp only [hl, if_false, Option.getD_some]
      by_cases hth : i ≤ c.threshold_seconds
      · simp [hth]
      · have hgt : c.threshold_seconds < i := lt_of_not_le hth
        simp [hth, hgt]

/-- C10: `get_current_state` returns the open block's type when an open block
exists; with no open block but a nonempty history it returns the most recent
closed block's type (not `None`); it returns `None` exactly when both the
open block and the history are empty. -/
theorem get_current_state_spec (m : BlockManager) :
    (∀ cur, m.current_block = some cur → m.get_current_state = some cur.type) ∧
    (∀ b, m.current_block = none → m.blocks.getLast? = some b →
      m.get_current_state = some b.type) ∧
    (m.get_current_state = none ↔ m.current_block = none ∧ m.blocks = []) := by
  rcases m with ⟨blocks, cur⟩
  unfold BlockManager.get_current_state
  rcases cur with _ | cur
  · rcases h : blocks.getLast? with _ | b
    · simp_all [List.getLast?_eq_none_iff]
    · have : blocks ≠ [] := by
        intro hnil
        rw [hnil] at h
        simp at h
      simp_all
  · simp

/-- C10 witness: a manager whose open slot is empty and whose history ends in
a BREAK block reports BREAK as the current state. -/
theorem get_current_state_spec_witness :
    (BlockManager.mk [Block.mk State.ACTIVITY 0 (some 5), Block.mk State.BREAK 5 (some 9)]
        none).get_current_state = some State.BREAK := by
  have h := get_current_state_spec
    (BlockManager.mk [Block.mk State.ACTIVITY 0 (some 5), Block.mk State.BREAK 5 (some 9)] none)
  exact h.2.1 (Block.mk State.BREAK 5 (some 9)) rfl (by decide)

/-- C6: a transition to the state the open block already has is a strict
no-op — the manager is unchanged (same history, same block count, same open
block, no new allocation) — and so is an immediately following transition to
the same state at a later time. -/
theorem transition_same_state_noop (m : BlockManager) (cur : Block) (s : State)
    (t d : Int) (o o' : Option Int)
    (hcur : m.current_block = some cur) (hty : cur.type = s) :
    m.transition s t o = m ∧
    (m.transition s t o).transition s (t + d) o' = m := by
  have hgen : ∀ (t'' : Int) (o'' : Option Int), m.transition s t'' o'' = m := by
    intro t'' o''
    unfold BlockManager.transition
    rw [hcur]
    simp [hty]
  exact ⟨hgen t o, by rw [hgen t o, hgen (t + d) o']⟩

/-- C6 witness: on a fresh manager opened as ACTIVITY at time 0, repeating
ACTIVITY at times 0 and 10 changes nothing. -/
theorem transition_same_state_noop_witness :
    ((BlockManager.empty.transition State.ACTIVITY 0 none).transition
        State.ACTIVITY 0 none = BlockManager.empty.transition State.ACTIVITY 0 none) ∧
    (((BlockManager.empty.transition State.ACTIVITY 0 none).transition
        State.ACTIVITY 0 none).transition State.ACTIVITY (0 + 10) none
      = BlockManager.empty.transition State.ACTIVITY 0 none) :=
  transition_same_state_noop (BlockManager.empty.transition State.ACTIVITY 0 none)
    (Block.mk State.ACTIVITY 0 none) State.ACTIVITY 0 10 none none rfl rfl

/-- C1: a transition that changes state closes the open block at the boundary
`b`, appends it to the history, and opens a new block of the new type at `b`;
`b` is `min (max override current.start) now` when the transition is
ACTIVITY→BREAK with an override supplied (for every override value), and `now`
in every other case. -/
theorem transition_changes_state (m : BlockManager) (cur : Block) (s : State)
    (now : Int) (o : Option Int)
    (hcur : m.current_block = some cur) (hty : cur.type ≠ s) :
    m.transition s now o =
      BlockManager.mk
        (m.blocks ++ [{ cur with end_ := some (specBoundary o cur.type s cur.start now) }])
        (some (Block.mk s (specBoundary o cur.type s cur.start now) none)) := by
  unfold BlockManager.transition specBoundary
  rw [hcur]
  dsimp only
  rw [if_neg hty]
  rcases o with _ | t
  · rfl
  · by_cases hab : cur.type = State.ACTIVITY ∧ s = State.BREAK
    · have hclamp : (if (if t < cur.start then cur.start else t) > now then now
          else if t < cur.start then cur.start else t) = min (max t cur.start) now := by
        split_ifs <;> omega
      simp only [hab, if_true, hclamp]
    · simp only [hab, if_false]

/-- C1 witness: from an ACTIVITY block opened at 100, a BREAK at time 50 with
override 400 closes at the clamped boundary `min (max 400 100) 50 = 50`. -/
theorem transition_changes_state_witness :
    (BlockManager.mk [] (some (Block.mk State.ACTIVITY 100 none))).transition
        State.BREAK 50 (some 400) =
      BlockManager.mk [Block.mk State.ACTIVITY 100 (some 50)]
        (some (Block.mk State.BREAK 50 none)) := by
  have h := transition_changes_state
    (BlockManager.mk [] (some (Block.mk State.ACTIVITY 100 none)))
    (Block.mk State.ACTIVITY 100 none) State.BREAK 50 (some 400) rfl (by decide)
  rw [h]
  rfl

end IdleLedger

namespace IdleLedger

/-! ## Totals (C8) -/

/-- Duration of a closed block as the specification words it: `end − start`
clamped to non-negative; a block without an end is not closed and contributes
nothing. -/
def closedDuration (b : Block) : Int :=
  match b.end_ with
  | some e => max 0 (e - b.start)
  | none => 0

/-- Totals as the specification words them: sum of clamped durations of the
closed ACTIVITY blocks, sum for the closed BREAK blocks, and `now − start` of
the open block (clamped to non-negative) added to the open block's bucket. -/
def totalsSpec (m : BlockManager) (now : Int) : Totals :=
  let closedActivity :=
    ((m.blocks.filter (fun b => b.type = State.ACTIVITY)).map closedDuration).sum
  let closedBreak :=
    ((m.blocks.filter (fun b => b.type = State.BREAK)).map closedDuration).sum
  match m.current_block with
  | none => { activity_seconds := closedActivity, break_seconds := closedBreak }
  | some cur =>
    if cur.type = State.ACTIVITY then
      { activity_seconds := closedActivity + max 0 (now - cur.start),
        break_seconds := closedBreak }
    else
      { activity_seconds := closedActivity,
        break_seconds := closedBreak + max 0 (now - cur.start) }

theorem State.eq_break_of_ne_activity {s : State} (h : ¬ s = State.ACTIVITY) :
    s = State.BREAK := by
  cases s
  · exact absurd rfl h
  · rfl

theorem foldl_totalsStep (now : Int) (l : List Block) (acc : Totals) :
    l.foldl (totalsStep now) acc =
      { activity_seconds := acc.activity_seconds +
          ((l.filter (fun b => b.type = State.ACTIVITY)).map (blockDuration now)).sum,
        break_seconds := acc.break_seconds +
          ((l.filter (fun b => b.type = State.BREAK)).map (blockDuration now)).sum } := by
  induction l generalizing acc with
  | nil => simp
  | cons b l ih =>
    by_cases hb : b.type = State.ACTIVITY
    · simp only [List.foldl_cons, ih, totalsStep, hb, if_true, List.filter_cons]
      have hnb : ¬ b.type = State.BREAK := by rw [hb]; decide
      simp [hb, hnb, add_assoc]
    · have hb' : b.type = State.BREAK := State.eq_break_of_ne_activity hb
      simp only [List.foldl_cons, ih, totalsStep, hb, if_false, List.filter_cons]
      simp [hb, hb', add_assoc]

theorem map_blockDuration_eq_closedDuration (now : Int) (l : List Block)
    (h : ∀ b ∈ l, b.end_ ≠ none) :
    l.map (blockDuration now) = l.map closedDuration := by
  induction l with
  | nil => rfl
  | cons b l ih =>
    have hb := h b (by simp)
    rcases he : b.end_ with _ | e
    · exact absurd he hb
    · simp only [List.map_cons]
      rw [ih fun x hx => h x (by simp [hx])]
      simp [blockDuration, closedDuration, he]

/-- C8: on a manager whose history blocks are all closed and whose open block
(if any) carries no end, `get_totals` returns exactly the specification's
totals: clamped closed-block durations bucketed by type, plus the clamped
elapsed time `now − current.start` in the open block's bucket. -/
theorem get_totals_spec (m : BlockManager) (now : Int)
    (hclosed : ∀ b ∈ m.blocks, b.end_ ≠ none)
    (hopen : ∀ cur, m.current_block = some cur → cur.end_ = none) :
    m.get_totals now = totalsSpec m now := by
  unfold BlockManager.get_totals totalsSpec
  have hfold := foldl_totalsStep now m.blocks { activity_seconds := 0, break_seconds := 0 }
  have hact : (m.blocks.filter (fun b => b.type = State.ACTIVITY)).map (blockDuration now) =
      (m.blocks.filter (fun b => b.type = State.ACTIVITY)).map closedDuration := by
    refine map_blockDuration_eq_closedDuration now _ fun b hb => ?_
    exact hclosed b (List.mem_of_mem_filter hb)
  have hbrk : (m.blocks.filter (fun b => b.type = State.BREAK)).map (blockDuration now) =
      (m.blocks.filter (fun b => b.type = State.BREAK)).map closedDuration := by
    refine map_blockDuration_eq_closedDuration now _ fun b hb => ?_
    exact hclosed b (List.mem_of_mem_filter hb)
  rcases hc : m.current_block with _ | cur
  · rw [hfold]
    simp [hact, hbrk]
  · have hce : cur.end_ = none := hopen cur hc
    rw [hfold]
    by_cases hty : cur.type = State.ACTIVITY
    · simp [totalsStep, hty, hact, hbrk, blockDuration, hce]
    · simp [totalsStep, hty, hact, hbrk, blockDuration, hce]

/-- C8 witness: one closed ACTIVITY block of 5 seconds, one closed BREAK block
of clamped length 0, and an open BREAK block of 3 seconds at `now = 15`. -/
theorem get_totals_spec_witness :
    (BlockManager.mk
        [Block.mk State.ACTIVITY 0 (some 5), Block.mk State.BREAK 9 (some 7)]
        (some (Block.mk State.BREAK 12 none))).get_totals 15 =
      totalsSpec
        (BlockManager.mk
          [Block.mk State.ACTIVITY 0 (some 5), Block.mk State.BREAK 9 (some 7)]
          (some (Block.mk State.BREAK 12 none))) 15 := by
  refine get_totals_spec _ 15 ?_ ?_
  · decide
  · intro cur h
    cases h
    rfl

end IdleLedger

namespace IdleLedger

/-! ## Coverage invariant (C3) -/

/-- One call of the driver loop to `BlockManager.transition`: the new state,
the call time, and the optional ACTIVITY→BREAK boundary override. -/
structure Call where
  state : State
  now : Int
  override : Option Int
  deriving DecidableEq, Repr

/-- Replay a list of transition calls against a manager. -/
def runCalls (calls : List Call) (m : BlockManager) : BlockManager :=
  calls.foldl (fun acc c => acc.transition c.state c.now c.override) m

/-- Call times are nondecreasing, starting no earlier than `t`. -/
def monoCalls : Int → List Call → Prop
  | _, [] => True
  | t, c :: cs => t ≤ c.now ∧ monoCalls c.now cs

/-- Time of the last call, with `t` as the value for an empty list. -/
def lastTime : Int → List Call → Int
  | t, [] => t
  | _, c :: cs => lastTime c.now cs

/-- Closed blocks cover `[t, e]` without gap or overlap: each block starts
where the previous one ended, has an end at or after its start, and the final
end is `e` (with `e = t` for the empty list). -/
def chainFrom : Int → List Block → Int → Prop
  | t, [], e => e = t
  | t, b :: bs, e => b.start = t ∧ ∃ be, b.end_ = some be ∧ t ≤ be ∧ chainFrom be bs e

theorem chainFrom_append {t e : Int} {bs : List Block} (h : chainFrom t bs e)
    (b : Block) (e' : Int) (hst : b.start = e) (hend : b.end_ = some e')
    (hle : e ≤ e') : chainFrom t (bs ++ [b]) e' := by
  induction bs generalizing t with
  | nil =>
    cases h
    exact ⟨hst, e', hend, hle, rfl⟩
  | cons hd tl ih =>
    obtain ⟨hhd, be, hbe, htbe, htl⟩ := h
    exact ⟨hhd, be, hbe, htbe, ih htl⟩

theorem chainFrom_le {t e : Int} {bs : List Block} (h : chainFrom t bs e) :
    t ≤ e := by
  induction bs generalizing t with
  | nil => cases h; exact le_refl _
  | cons hd tl ih =>
    obtain ⟨_, be, _, htbe, htl⟩ := h
    exact le_trans htbe (ih htl)

theorem chainFrom_mem {t e : Int} {bs : List Block} (h : chainFrom t bs e) :
    ∀ b ∈ bs, t ≤ b.start ∧ ∃ be, b.end_ = some be ∧ b.start ≤ be ∧ be ≤ e := by
  induction bs generalizing t with
  | nil => intro b hb; cases hb
  | cons hd tl ih =>
    obtain ⟨hhd, be, hbe, htbe, htl⟩ := h
    intro b hb
    rcases List.mem_cons.mp hb with hb | hb
    · subst hb
      exact ⟨le_of_eq hhd.symm, be, hbe, hhd ▸ htbe, chainFrom_le htl⟩
    · obtain ⟨h1, be', hbe', h2, h3⟩ := ih htl b hb
      exact ⟨le_trans (hhd ▸ htbe) h1, be', hbe', h2, h3⟩

theorem chainFrom_chain' {t e : Int} {bs : List Block} (h : chainFrom t bs e) :
    List.Chain' (fun a b => a.end_ = some b.start) bs := by
  induction bs generalizing t with
  | nil => exact List.chain'_nil
  | cons hd tl ih =>
    obtain ⟨hhd, be, hbe, htbe, htl⟩ := h
    rcases tl with _ | ⟨hd', tl'⟩
    · simp
    · obtain ⟨hhd', hrest⟩ := htl
      exact List.Chain'.cons (by rw [hbe, hhd']) (ih ⟨hhd', hrest⟩)

theorem chainFrom_pairwise_sep {t e : Int} {bs : List Block}
    (h : chainFrom t bs e) :
    List.Pairwise (fun a b => ∀ ae, a.end_ = some ae → ae ≤ b.start) bs := by
  induction bs generalizing t with
  | nil => exact List.Pairwise.nil
  | cons hd tl ih =>
    obtain ⟨hhd, be, hbe, htbe, htl⟩ := h
    refine List.Pairwise.cons ?_ (ih htl)
    intro b hb ae hae
    rw [hbe] at hae
    cases hae
    exact (chainFrom_mem htl b hb).1

theorem chainFrom_pairwise_start {t e : Int} {bs : List Block}
    (h : chainFrom t bs e) :
    List.Pairwise (fun a b => a.start ≤ b.start) bs := by
  refine (chainFrom_pairwise_sep h).imp_of_mem ?_
  intro a b ha _ hab
  obtain ⟨-, ae, hae, hsa, -⟩ := chainFrom_mem h a ha
  exact le_trans hsa (hab ae hae)

theorem chainFrom_getLast {t e : Int} {bs : List Block} (h : chainFrom t bs e) :
    ∀ b, bs.getLast? = some b → b.end_ = some e := by
  induction bs generalizing t with
  | nil => intro b hb; simp at hb
  | cons hd tl ih =>
    obtain ⟨hhd, be, hbe, htbe, htl⟩ := h
    intro b hb
    rcases tl with _ | ⟨hd', tl'⟩
    · simp at hb
      subst hb
      cases htl
      exact hbe
    · rw [List.getLast?_cons_cons] at hb
      exact ih htl b hb

theorem chainFrom_sum {t e : Int} {bs : List Block} (h : chainFrom t bs e)
    (now : Int) : ((bs.map (blockDuration now)).sum) = e - t := by
  induction bs generalizing t with
  | nil => cases h; simp
  | cons hd tl ih =>
    obtain ⟨hhd, be, hbe, htbe, htl⟩ := h
    have hdur : blockDuration now hd = be - t := by
      unfold blockDuration
      rw [hbe, hhd]
      simp only [Option.getD_some]
      omega
    have := ih htl
    simp only [List.map_cons, List.sum_cons, hdur, this]
    omega

/-- The invariant carried through a run: the manager has an open block with no
end whose start is at most `L` (the time of the last call processed), and the
closed history covers `[t0, current.start]` exactly. -/
def Tracks (t0 L : Int) (m : BlockManager) : Prop :=
  ∃ cur, m.current_block = some cur ∧ cur.end_ = none ∧ cur.start ≤ L ∧
    chainFrom t0 m.blocks cur.start

theorem transition_preserves_tracks {t0 L : Int} {m : BlockManager}
    (h : Tracks t0 L m) (s : State) (n : Int) (o : Option Int) (hLn : L ≤ n) :
    Tracks t0 n (m.transition s n o) := by
  obtain ⟨cur, hcur, hce, hcl, hchain⟩ := h
  have hsn : cur.start ≤ n := le_trans hcl hLn
  unfold BlockManager.transition
  rw [hcur]
  dsimp only
  by_cases hty : cur.type = s
  · rw [if_pos hty]
    exact ⟨cur, hcur, hce, hsn, hchain⟩
  · rw [if_neg hty]
    rcases o with _ | t
    · exact ⟨_, rfl, rfl, le_refl n,
        chainFrom_append hchain _ n rfl rfl hsn⟩
    · dsimp only
      by_cases hab : cur.type = State.ACTIVITY ∧ s = State.BREAK
      · rw [if_pos hab]
        refine ⟨_, rfl, rfl, ?_, chainFrom_append hchain _ _ rfl rfl ?_⟩
        · dsimp only
          split_ifs <;> omega
        · dsimp only
          split_ifs <;> omega
      · rw [if_neg hab]
        exact ⟨_, rfl, rfl, le_refl n,
          chainFrom_append hchain _ n rfl rfl hsn⟩

theorem runCalls_tracks {t0 : Int} (calls : List Call) (L : Int)
    (m : BlockManager) (h : Tracks t0 L m) (hmono : monoCalls L calls) :
    Tracks t0 (lastTime L calls) (runCalls calls m) := by
  induction calls generalizing L m with
  | nil => exact h
  | cons c cs ih =>
    obtain ⟨hLc, hcs⟩ := hmono
    exact ih c.now (m.transition c.state c.now c.override)
      (transition_preserves_tracks h c.state c.now c.override hLc) hcs

theorem totals_sum (m : BlockManager) (now : Int) :
    (m.get_totals now).activity_seconds + (m.get_totals now).break_seconds =
      ((m.blocks.map (blockDuration now)).sum) +
        (match m.current_block with
         | none => 0
         | some cur => blockDuration now cur) := by
  unfold BlockManager.get_totals
  rw [foldl_totalsStep]
  have hsplit : ∀ l : List Block,
      ((l.filter (fun b => b.type = State.ACTIVITY)).map (blockDuration now)).sum +
        ((l.filter (fun b => b.type = State.BREAK)).map (blockDuration now)).sum =
        (l.map (blockDuration now)).sum := by
    intro l
    induction l with
    | nil => simp
    | cons b l ihl =>
      by_cases hb : b.type = State.ACTIVITY
      · have hnb : ¬ b.type = State.BREAK := by rw [hb]; decide
        simp [List.filter_cons, hb, hnb]
        omega
      · have hb' : b.type = State.BREAK := State.eq_break_of_ne_activity hb
        simp [List.filter_cons, hb, hb']
        omega
  rcases m.current_block with _ | cur
  · dsimp only
    rw [← hsplit m.blocks]
    omega
  · dsimp only
    unfold totalsStep
    split_ifs <;> dsimp only <;> rw [← hsplit m.blocks] <;> omega

/-- C3: replaying any nonempty monotone sequence of transition calls (with
arbitrary overrides) from a fresh manager yields a history of closed blocks
that is contiguous (each end equals the next start), ordered by start,
non-overlapping (each block ends at or before any later block starts), with
the open block starting at the last closed block's end; and for every `now`
at or after the last call time, the `get_totals` buckets sum to exactly
`now − t0` where `t0` is the first call's time. -/
theorem coverage_invariant (c0 : Call) (rest : List Call) (now : Int)
    (hmono : monoCalls c0.now rest) (hnow : lastTime c0.now rest ≤ now) :
    ∃ cur, (runCalls (c0 :: rest) BlockManager.empty).current_block = some cur ∧
      cur.end_ = none ∧
      chainFrom c0.now (runCalls (c0 :: rest) BlockManager.empty).blocks cur.start ∧
      List.Chain' (fun a b => a.end_ = some b.start)
        (runCalls (c0 :: rest) BlockManager.empty).blocks ∧
      List.Pairwise (fun a b => a.start ≤ b.start)
        (runCalls (c0 :: rest) BlockManager.empty).blocks ∧
      List.Pairwise (fun a b => ∀ ae, a.end_ = some ae → ae ≤ b.start)
        (runCalls (c0 :: rest) BlockManager.empty).blocks ∧
      (∀ b, (runCalls (c0 :: rest) BlockManager.empty).blocks.getLast? = some b →
        b.end_ = some cur.start) ∧
      ((runCalls (c0 :: rest) BlockManager.empty).get_totals now).activity_seconds +
        ((runCalls (c0 :: rest) BlockManager.empty).get_totals now).break_seconds =
        now - c0.now := by
  have h0 : Tracks c0.now c0.now (BlockManager.empty.transition c0.state c0.now c0.override) := by
    refine ⟨Block.mk c0.state c0.now none, rfl, rfl, le_refl _, rfl⟩
  have hrun : Tracks c0.now (lastTime c0.now rest) (runCalls (c0 :: rest) BlockManager.empty) := by
    have : runCalls (c0 :: rest) BlockManager.empty =
        runCalls rest (BlockManager.empty.transition c0.state c0.now c0.override) := rfl
    rw [this]
    exact runCalls_tracks rest c0.now _ h0 hmono
  obtain ⟨cur, hcur, hce, hcl, hchain⟩ := hrun
  refine ⟨cur, hcur, hce, hchain, chainFrom_chain' hchain,
    chainFrom_pairwise_start hchain, chainFrom_pairwise_sep hchain,
    chainFrom_getLast hchain, ?_⟩
  rw [totals_sum]
  rw [hcur]
  dsimp only
  rw [chainFrom_sum hchain now]
  have hcurdur : blockDuration now cur = now - cur.start := by
    unfold blockDuration
    rw [hce]
    simp only [Option.getD_none]
    have : cur.start ≤ now := le_trans hcl hnow
    omega
  rw [hcurdur]
  omega

/-- C3 witness: the run ACTIVITY at 0, BREAK at 10 with override 4, ACTIVITY
at 20 satisfies the monotonicity hypotheses, and at `now = 25` the invariant
applies. -/
theorem coverage_invariant_witness :
    monoCalls (Call.mk State.ACTIVITY 0 none).now
      [Call.mk State.BREAK 10 (some 4), Call.mk State.ACTIVITY 20 none] ∧
    lastTime (Call.mk State.ACTIVITY 0 none).now
      [Call.mk State.BREAK 10 (some 4), Call.mk State.ACTIVITY 20 none] ≤ 25 ∧
    ∃ cur, (runCalls
        [Call.mk State.ACTIVITY 0 none, Call.mk State.BREAK 10 (some 4),
          Call.mk State.ACTIVITY 20 none] BlockManager.empty).current_block = some cur ∧
      ((runCalls
        [Call.mk State.ACTIVITY 0 none, Call.mk State.BREAK 10 (some 4),
          Call.mk State.ACTIVITY 20 none] BlockManager.empty).get_totals 25).activity_seconds +
        ((runCalls
        [Call.mk State.ACTIVITY 0 none, Call.mk State.BREAK 10 (some 4),
          Call.mk State.ACTIVITY 20 none] BlockManager.empty).get_totals 25).break_seconds =
        25 - (Call.mk State.ACTIVITY 0 none).now := by
  have hmono : monoCalls (Call.mk State.ACTIVITY 0 none).now
      [Call.mk State.BREAK 10 (some 4), Call.mk State.ACTIVITY 20 none] := by
    exact ⟨by decide, by decide, trivial⟩
  have hlast : lastTime (Call.mk State.ACTIVITY 0 none).now
      [Call.mk State.BREAK 10 (some 4), Call.mk State.ACTIVITY 20 none] ≤ 25 := by
    decide
  obtain ⟨cur, hcur, _, _, _, _, _, _, hsum⟩ :=
    coverage_invariant (Call.mk State.ACTIVITY 0 none)
      [Call.mk State.BREAK 10 (some 4), Call.mk State.ACTIVITY 20 none] 25 hmono hlast
  exact ⟨hmono, hlast, cur, hcur, hsum⟩

end IdleLedger

namespace IdleLedger

/-! ## Closed-block well-formedness (C7) -/

/-- C7 counterexample: the claim fails as stated.  From a fresh manager, the
public-operation sequence `transition(ACTIVITY, 10)` then
`transition(BREAK, 5)` (a call with `now` earlier than the open block's
start, and no override, so no clamping runs) produces a closed block whose
end 5 is strictly earlier than its start 10. -/
theorem closed_end_before_start_reachable :
    ((BlockManager.empty.transition State.ACTIVITY 10 none).transition
        State.BREAK 5 none).blocks =
      [Block.mk State.ACTIVITY 10 (some 5)] ∧
    ¬ ((10 : Int) ≤ 5) :=
  ⟨rfl, by decide⟩

/-- States reachable by the public operations when the callers respect the
wall clock: `transition` and `close_current` are invoked at a time no earlier
than the open block's start (the driver's `now` is monotone), and `load` only
supplies history blocks whose recorded end is at or after their start. -/
inductive Reachable : BlockManager → Prop where
  | init : Reachable BlockManager.empty
  | step_transition (m : BlockManager) (s : State) (now : Int) (o : Option Int) :
      Reachable m → (∀ cur, m.current_block = some cur → cur.start ≤ now) →
      Reachable (m.transition s now o)
  | step_close (m : BlockManager) (e : Int) :
      Reachable m → (∀ cur, m.current_block = some cur → cur.start ≤ e) →
      Reachable (m.close_current e).1
  | step_open (m : BlockManager) (s : State) (start : Int) :
      Reachable m → Reachable (m.open_new s start)
  | step_load (m : BlockManager) (blocks : List Block) (cur : Option Block) :
      Reachable m → (∀ b ∈ blocks, ∀ e, b.end_ = some e → b.start ≤ e) →
      Reachable (m.load blocks cur)

/-- C7 amended: in every state reachable by `transition`, `close_current`,
`open_new` and `load` — with `transition` and `close_current` called at a
time no earlier than the open block's start, and `load` given only history
blocks whose end is at or after their start — every closed block's end is at
or after its start.  (As literally stated the claim is false: with arbitrary
call times the clamping of section 4.2 does not run on the `b = now` paths;
see the counterexample.) -/
theorem closed_end_ge_start_of_reachable (m : BlockManager) (h : Reachable m) :
    ∀ b ∈ m.blocks, ∀ e, b.end_ = some e → b.start ≤ e := by
  induction h with
  | init => intro b hb; cases hb
  | step_transition m s now o hm hmono ih =>
    intro b hb e he
    unfold BlockManager.transition at hb
    rcases hc : m.current_block with _ | cur
    · rw [hc] at hb
      exact ih b hb e he
    · rw [hc] at hb
      dsimp only at hb
      by_cases hty : cur.type = s
      · rw [if_pos hty] at hb
        exact ih b hb e he
      · rw [if_neg hty] at hb
        have hsn : cur.start ≤ now := hmono cur hc
        rcases List.mem_append.mp hb with hb | hb
        · exact ih b hb e he
        · simp only [List.mem_singleton] at hb
          subst hb
          simp only at he
          rcases o with _ | t
          · simp only at he
            cases he
            exact hsn
          · dsimp only at he
            by_cases hab : cur.type = State.ACTIVITY ∧ s = State.BREAK
            · rw [if_pos hab] at he
              cases he
              dsimp only
              split_ifs <;> omega
            · rw [if_neg hab] at he
              cases he
              exact hsn
  | step_close m e' hm hmono ih =>
    intro b hb e he
    unfold BlockManager.close_current at hb
    rcases hc : m.current_block with _ | cur
    · rw [hc] at hb
      exact ih b hb e he
    · rw [hc] at hb
      dsimp only at hb
      rcases List.mem_append.mp hb with hb | hb
      · exact ih b hb e he
      · simp only [List.mem_singleton] at hb
        subst hb
        simp only at he
        cases he
        exact hmono cur hc
  | step_open m s start hm ih =>
    intro b hb e he
    exact ih b hb e he
  | step_load m blocks cur hm hwf ih =>
    intro b hb e he
    exact hwf b hb e he

/-- C7 amended witness: the two-step run ACTIVITY at 0 then BREAK at 7 is
reachable with monotone call times, and its single closed block `[0, 7]`
satisfies the invariant. -/
theorem closed_end_ge_start_witness :
    ((BlockManager.empty.transition State.ACTIVITY 0 none).transition
        State.BREAK 7 none).blocks = [Block.mk State.ACTIVITY 0 (some 7)] ∧
    (0 : Int) ≤ 7 := by
  have h1 : Reachable (BlockManager.empty.transition State.ACTIVITY 0 none) := by
    refine Reachable.step_transition _ State.ACTIVITY 0 none Reachable.init ?_
    intro cur hcur
    cases hcur
  have h2 : Reachable ((BlockManager.empty.transition State.ACTIVITY 0 none).transition
      State.BREAK 7 none) := by
    refine Reachable.step_transition _ State.BREAK 7 none h1 ?_
    intro cur hcur
    cases hcur
    decide
  refine ⟨rfl, ?_⟩
  have := closed_end_ge_start_of_reachable _ h2 (Block.mk State.ACTIVITY 0 (some 7))
    (by decide) 7 rfl
  exact this

end IdleLedger

namespace IdleLedger

/-! ## Journal persistence (`store/journal.py`) -/

/-- Python exceptions that the journal and config code can raise. -/
inductive PyError where
  | keyError (k : String)
  | valueError (msg : String)
  | typeError (msg : String)
  | attributeError (a : String)
  deriving DecidableEq, Repr

/-- JSON document values.  A datetime serialised with `isoformat` is the
constructor `jtime` carrying the underlying instant; `jstr` stands for a
string that is not a valid ISO-8601 datetime (so `fromisoformat` rejects
it). -/
inductive JValue where
  | jnull
  | jbool (b : Bool)
  | jint (n : Int)
  | jstr (s : String)
  | jtime (t : Int)
  | jlist (xs : List JValue)
  | jobj (fields : List (String × JValue))

/-- Python truthiness of a JSON value. -/
def JValue.truthy : JValue → Bool
  | JValue.jnull => false
  | JValue.jbool b => b
  | JValue.jint n => n != 0
  | JValue.jstr s => s != ""
  | JValue.jtime _ => true
  | JValue.jlist xs => !xs.isEmpty
  | JValue.jobj fs => !fs.isEmpty

/-- Python `dict.get(k)`: `None` when the key is absent. -/
def jget (fields : List (String × JValue)) (k : String) : Option JValue :=
  (fields.find? (fun p => p.1 == k)).map (fun p => p.2)

/-- Python `dict[k]`: raises `KeyError` when the key is absent. -/
def jindex (fields : List (String × JValue)) (k : String) : Except PyError JValue :=
  match jget fields k with
  | some v => Except.ok v
  | none => Except.error (PyError.keyError k)

/-- Python `State(x)`: the enum constructor, raising `ValueError` on anything
other than the two member values. -/
def State.fromValue : JValue → Except PyError State
  | JValue.jstr s =>
    if s = "activity" then Except.ok State.ACTIVITY
    else if s = "break" then Except.ok State.BREAK
    else Except.error (PyError.valueError s)
  | _ => Except.error (PyError.valueError "is not a valid State")

/-- Python `datetime.fromisoformat(x)`: succeeds exactly on serialised
datetimes; raises `ValueError` on other strings and `TypeError` on
non-strings. -/
def fromisoformat : JValue → Except PyError Int
  | JValue.jtime t => Except.ok t
  | JValue.jstr s => Except.error (PyError.valueError s)
  | _ => Except.error (PyError.typeError "fromisoformat: argument must be str")

/-- Helper `_block_seconds` from `store/journal.py`: derived display field,
never negative. -/
def _block_seconds (start end_ : Int) : Int :=
  max 0 (end_ - start)

/-- Serialiser `_block_to_dict` from `store/journal.py`: an open block gets
the checkpoint end `now_wall` and an `open` marker; `seconds` is the derived
display duration. -/
def _block_to_dict (block : Block) (now_wall : Option Int) (open_block : Bool) :
    JValue :=
  let e : Option Int :=
    match block.end_ with
    | some t => some t
    | none => now_wall
  let seconds : Option Int := e.map (fun t => _block_seconds block.start t)
  let base : List (String × JValue) :=
    [("type", JValue.jstr block.type.value),
     ("start", JValue.jtime block.start),
     ("end", match e with | some t => JValue.jtime t | none => JValue.jnull),
     ("seconds", match seconds with | some n => JValue.jint n | none => JValue.jnull)]
  JValue.jobj (if open_block then base ++ [("open", JValue.jbool true)] else base)

/-- Parser `_block_from_dict` from `store/journal.py`: `raw["type"]` and
`raw["start"]` index the dict (KeyError when absent), the values feed `State`
and `fromisoformat` (ValueError / TypeError when malformed), and a falsy
`raw.get("end")` yields an endless block.  `seconds` and `open` are
ignored. -/
def _block_from_dict (raw : List (String × JValue)) : Except PyError Block := do
  let tv ← jindex raw "type"
  let ty ← State.fromValue tv
  let sv ← jindex raw "start"
  let st ← fromisoformat sv
  let e : Option Int ←
    match jget raw "end" with
    | some v =>
      if v.truthy then (fromisoformat v).map some
      else pure none
    | none => pure none
  pure (Block.mk ty st e)

/-- Loop body of `load_day` over the `blocks` list: non-dict items are
skipped (`continue`); a raised exception aborts the whole call. -/
def parseBlocks : List JValue → Except PyError (List Block)
  | [] => Except.ok []
  | item :: rest =>
    match item with
    | JValue.jobj fields =>
      match _block_from_dict fields with
      | Except.error e => Except.error e
      | Except.ok b =>
        match parseBlocks rest with
        | Except.error e => Except.error e
        | Except.ok bs => Except.ok (b :: bs)
    | _ => parseBlocks rest

/-- Content of the journal file as `load_day` encounters it: missing path,
unreadable file (OSError), or text whose JSON parse either fails
(`text none`, a JSONDecodeError) or yields a value. -/
inductive FileContent where
  | missing
  | unreadable
  | text (parsed : Option JValue)

/-- Loader `load_day` from `store/journal.py`.  A missing, unreadable or
non-JSON file returns `None`; a parsed document that is not a dict raises
`AttributeError` at `raw.get`; a `blocks` entry that is not a list returns
`None`; otherwise the block records are parsed (exceptions from
`_block_from_dict` escaping uncaught) and loaded as closed history with no
open block. -/
def load_day (f : FileContent) : Except PyError (Option BlockManager) :=
  match f with
  | FileContent.missing => Except.ok none
  | FileContent.unreadable => Except.ok none
  | FileContent.text none => Except.ok none
  | FileContent.text (some raw) =>
    match raw with
    | JValue.jobj fields =>
      match jget fields "blocks" with
      | some (JValue.jlist items) => do
        let blocks ← parseBlocks items
        Except.ok (some (BlockManager.empty.load blocks none))
      | _ => Except.ok none
    | _ => Except.error (PyError.attributeError "get")

/-- Block records of the document built by `write_day_atomic`: the closed
history serialised as-is, then the open block (if any) serialised with the
current wall time as checkpoint end and the `open` marker. -/
def write_day_blocks (m : BlockManager) (now_wall : Int) : List JValue :=
  let closed := m.blocks.map (fun b => _block_to_dict b none false)
  match m.get_current_block with
  | none => closed
  | some cur => closed ++ [_block_to_dict cur (some now_wall) true]

/-- Document built by `write_day_atomic` from `store/journal.py`.  The
`timezone` string is display-only metadata outside the integer-time model and
is serialised as null; the temp-file/fsync/rename mechanics concern the
filesystem, not the document, and the claim about them is the document's
content. -/
def write_day_doc (day : Int) (config : Config) (m : BlockManager)
    (now_wall : Int) : JValue :=
  let totals := m.get_totals now_wall
  JValue.jobj
    [("schema_version", JValue.jint 1),
     ("app", JValue.jobj [("name", JValue.jstr "idle-ledger"),
       ("version", JValue.jstr "0.1.0")]),
     ("date", JValue.jint day),
     ("timezone", JValue.jnull),
     ("threshold_seconds", JValue.jint config.threshold_seconds),
     ("treat_inhibitor_as_activity", JValue.jbool config.treat_inhibitor_as_activity),
     ("blocks", JValue.jlist (write_day_blocks m now_wall)),
     ("totals", JValue.jobj
       [("activity_seconds", JValue.jint totals.activity_seconds),
        ("break_seconds", JValue.jint totals.break_seconds)])]

end IdleLedger

namespace IdleLedger

/-! ## Journal round trip (C4) and load robustness (C5) -/

theorem block_to_dict_fields (b : Block) (nw : Option Int) (ob : Bool) :
    ∃ fields, _block_to_dict b nw ob = JValue.jobj fields ∧
      _block_from_dict fields =
        Except.ok (Block.mk b.type b.start
          (match b.end_ with | some t => some t | none => nw)) := by
  rcases b with ⟨ty, st, en⟩
  cases ty <;> rcases en with _ | t <;> rcases nw with _ | w <;> cases ob <;>
    exact ⟨_, rfl, rfl⟩

theorem parseBlocks_append {l1 l2 : List JValue} {bs1 bs2 : List Block}
    (h1 : parseBlocks l1 = Except.ok bs1) (h2 : parseBlocks l2 = Except.ok bs2) :
    parseBlocks (l1 ++ l2) = Except.ok (bs1 ++ bs2) := by
  induction l1 generalizing bs1 with
  | nil =>
    simp only [parseBlocks] at h1
    cases h1
    simpa using h2
  | cons item rest ih =>
    rcases item with _ | _ | _ | _ | _ | _ | fields
    case jobj =>
      simp only [parseBlocks, List.cons_append] at h1 ⊢
      rcases hb : _block_from_dict fields with e | b
      · rw [hb] at h1
        simp at h1
      · rw [hb] at h1
        rcases hr : parseBlocks rest with e2 | brest
        · rw [hr] at h1
          simp at h1
        · rw [hr] at h1
          simp at h1
          subst h1
          dsimp only
          have happ : rest.append l2 = rest ++ l2 := rfl
          rw [happ, ih hr]
          simp
    all_goals exact ih h1

theorem parseBlocks_closed (l : List Block) :
    parseBlocks (l.map (fun b => _block_to_dict b none false)) = Except.ok l := by
  induction l with
  | nil => rfl
  | cons b rest ih =>
    obtain ⟨fields, hf, hparse⟩ := block_to_dict_fields b none false
    simp only [List.map_cons, hf, parseBlocks, hparse, ih]
    rcases b with ⟨ty, st, en⟩
    rcases en with _ | t <;> rfl

/-- C4: loading the document `write_day_atomic` produced reproduces exactly
the closed-block history (types, starts and ends unchanged; the display-only
`seconds` and `open` fields are recomputed or dropped), the block that was
open when written comes back only as a closed block ending at its persisted
checkpoint end (`now_wall` for a block with no end), and the loaded manager
never has an open block. -/
theorem write_day_load_day_roundtrip (day : Int) (config : Config)
    (m : BlockManager) (now_wall : Int) :
    load_day (FileContent.text (some (write_day_doc day config m now_wall))) =
      Except.ok (some (BlockManager.mk
        (m.blocks ++
          (match m.current_block with
           | none => []
           | some cur => [Block.mk cur.type cur.start (some (cur.end_.getD now_wall))]))
        none)) := by
  have hblocks : parseBlocks (write_day_blocks m now_wall) =
      Except.ok (m.blocks ++
        (match m.current_block with
         | none => []
         | some cur => [Block.mk cur.type cur.start (some (cur.end_.getD now_wall))])) := by
    unfold write_day_blocks BlockManager.get_current_block
    rcases hc : m.current_block with _ | cur
    · simpa using parseBlocks_closed m.blocks
    · obtain ⟨fields, hf, hparse⟩ := block_to_dict_fields cur (some now_wall) true
      have hopen : parseBlocks [_block_to_dict cur (some now_wall) true] =
          Except.ok [Block.mk cur.type cur.start (some (cur.end_.getD now_wall))] := by
        rw [hf]
        simp only [parseBlocks, hparse]
        rcases cur with ⟨ty, st, en⟩
        rcases en with _ | t <;> rfl
      exact parseBlocks_append (parseBlocks_closed m.blocks) hopen
  have hfind : jget
      [("schema_version", JValue.jint 1),
       ("app", JValue.jobj [("name", JValue.jstr "idle-ledger"),
         ("version", JValue.jstr "0.1.0")]),
       ("date", JValue.jint day),
       ("timezone", JValue.jnull),
       ("threshold_seconds", JValue.jint config.threshold_seconds),
       ("treat_inhibitor_as_activity", JValue.jbool config.treat_inhibitor_as_activity),
       ("blocks", JValue.jlist (write_day_blocks m now_wall)),
       ("totals", JValue.jobj
         [("activity_seconds", JValue.jint (m.get_totals now_wall).activity_seconds),
          ("break_seconds", JValue.jint (m.get_totals now_wall).break_seconds)])]
      "blocks" = some (JValue.jlist (write_day_blocks m now_wall)) := rfl
  unfold load_day write_day_doc
  dsimp only
  rw [hfind]
  dsimp only
  rw [hblocks]
  rfl

/-- C5: `load_day` does return absent for a missing file, an unreadable file,
non-JSON text, and a `blocks` entry that is not a list — but a document whose
`blocks` list contains a record with a missing or malformed `type`, `start`
or `end` field makes it raise (`KeyError` / `ValueError`) instead of
returning absent, and a JSON document that is not an object raises
`AttributeError`; the claim's "never raises" is the documented intent and the
code violates it. -/
theorem load_day_error_behaviour :
    load_day FileContent.missing = Except.ok none ∧
    load_day FileContent.unreadable = Except.ok none ∧
    load_day (FileContent.text none) = Except.ok none ∧
    load_day (FileContent.text (some (JValue.jobj [("blocks", JValue.jint 3)]))) =
      Except.ok none ∧
    load_day (FileContent.text (some (JValue.jobj
        [("blocks", JValue.jlist [JValue.jobj []])]))) =
      Except.error (PyError.keyError "type") ∧
    load_day (FileContent.text (some (JValue.jobj
        [("blocks", JValue.jlist [JValue.jobj [("type", JValue.jstr "bogus")]])]))) =
      Except.error (PyError.valueError "bogus") ∧
    load_day (FileContent.text (some (JValue.jlist []))) =
      Except.error (PyError.attributeError "get") :=
  ⟨rfl, rfl, rfl, rfl, rfl, rfl, rfl⟩

end IdleLedger

namespace IdleLedger

/-! ## Config loading (`store/config.py`, C9)

The config layer manipulates a Python `Config` object through attribute
access, so it is modelled at Python-object level: an instance is its
attribute dictionary, reading an absent attribute raises `AttributeError`,
and assignment inserts a new attribute (Python dataclasses are open).  A
float value is carried by its literal rendering. -/

/-- Value of one Python attribute. -/
inductive PyVal where
  | vint (n : Int)
  | vbool (b : Bool)
  | vstr (s : String)
  | vfloat (lit : String)
  deriving DecidableEq, Repr

/-- Python `str()` of an attribute value, as interpolated into f-strings. -/
def PyVal.render : PyVal → String
  | PyVal.vint n => toString n
  | PyVal.vbool b => if b then "True" else "False"
  | PyVal.vstr s => s
  | PyVal.vfloat lit => lit

/-- Attribute read: `AttributeError` when the attribute is absent. -/
def getattr (obj : List (String × PyVal)) (name : String) : Except PyError PyVal :=
  match obj.find? (fun p => p.1 == name) with
  | some p => Except.ok p.2
  | none => Except.error (PyError.attributeError name)

/-- Attribute assignment: overwrite if present, append otherwise. -/
def setattr (obj : List (String × PyVal)) (name : String) (v : PyVal) :
    List (String × PyVal) :=
  if obj.any (fun p => p.1 == name) then
    obj.map (fun p => if p.1 == name then (p.1, v) else p)
  else obj ++ [(name, v)]

/-- A freshly constructed `Config()` from `engine/types.py`: exactly the four
declared dataclass fields with their defaults (300, True, 2.0, 30), in
declaration order.  Neither `daily_target_minutes` nor `week_start` is
declared. -/
def defaultConfigInstance : List (String × PyVal) :=
  [("threshold_seconds", PyVal.vint 300),
   ("treat_inhibitor_as_activity", PyVal.vbool true),
   ("poll_seconds", PyVal.vfloat "2.0"),
   ("journal_heartbeat_seconds", PyVal.vint 30)]

/-- Template renderer `default_config_toml` from `store/config.py`: reads the
interpolated attributes of `config or Config()` in the f-strings' evaluation
order — threshold, poll, heartbeat, inhibitor (lower-cased), then
`daily_target_minutes` and `week_start` in the summary section. -/
def default_config_toml (config : Option (List (String × PyVal))) :
    Except PyError String := do
  let cfg := config.getD defaultConfigInstance
  let thr ← getattr cfg "threshold_seconds"
  let poll ← getattr cfg "poll_seconds"
  let hb ← getattr cfg "journal_heartbeat_seconds"
  let inh ← getattr cfg "treat_inhibitor_as_activity"
  let target ← getattr cfg "daily_target_minutes"
  let ws ← getattr cfg "week_start"
  Except.ok
    ("# idle-ledger configuration\n" ++
     "# Location: ~/.config/idle-ledger/config.toml (or XDG_CONFIG_HOME)\n" ++
     "\n" ++
     "threshold_seconds = " ++ thr.render ++ "\n" ++
     "poll_seconds = " ++ poll.render ++ "\n" ++
     "journal_heartbeat_seconds = " ++ hb.render ++ "\n" ++
     "treat_inhibitor_as_activity = " ++ inh.render.toLower ++ "\n" ++
     "\n" ++
     "[summary]\n" ++
     "# Daily activity target (minutes)\n" ++
     "daily_target_minutes = " ++ target.render ++ "\n" ++
     "# Week start: \"iso\" (Mon) or \"sunday\"\n" ++
     "week_start = \"" ++ ws.render ++ "\"\n" ++
     "\n" ++
     "[linux]\n" ++
     "# Prefer hypridle (Hyprland) when installed\n" ++
     "prefer_hypridle = true\n")

/-- Writer `ensure_default_config_file` from `store/config.py`, over a
filesystem modelled as `path ↦ content`: writes the rendered default
template when the path does not exist (directory creation not modelled). -/
def ensure_default_config_file (fs : String → Option String) (path : String) :
    Except PyError (String → Option String) :=
  match fs path with
  | some _ => Except.ok fs
  | none =>
    match default_config_toml none with
    | Except.error e => Except.error e
    | Except.ok text => Except.ok (fun p => if p = path then some text else fs p)

/-- Result of `load_config`: the filesystem after any write, the config
object, and the `loaded` / `created` meta flags. -/
structure ConfigLoadResult where
  fs : String → Option String
  cfg : List (String × PyVal)
  loaded : Bool
  created : Bool

/-- Loader `load_config` from `store/config.py`.  `tomlParse` stands for
`read_text` + `tomllib.loads`, returning the parsed top-level table or `none`
for an `OSError` / `TOMLDecodeError` (both caught and mapped to defaults).
TOML float values, and Python's bool-is-an-int subtyping in the `isinstance`
guards, are outside the integer-valued document model; neither is touched by
a verified claim. -/
def load_config (tomlParse : String → Option (List (String × JValue)))
    (fs0 : String → Option String) (path : String) (create_if_missing : Bool) :
    Except PyError ConfigLoadResult :=
  let before := (fs0 path).isSome
  match (if create_if_missing then ensure_default_config_file fs0 path
         else Except.ok fs0) with
  | Except.error e => Except.error e
  | Except.ok fs =>
    let created := create_if_missing && !before
    match fs path with
    | none => Except.ok ⟨fs, defaultConfigInstance, false, created⟩
    | some text =>
      match tomlParse text with
      | none => Except.ok ⟨fs, defaultConfigInstance, false, created⟩
      | some raw =>
        let cfg := defaultConfigInstance
        let cfg := match jget raw "threshold_seconds" with
          | some (JValue.jint n) => setattr cfg "threshold_seconds" (PyVal.vint n)
          | _ => cfg
        let cfg := match jget raw "poll_seconds" with
          | some (JValue.jint n) =>
            setattr cfg "poll_seconds" (PyVal.vfloat (toString n ++ ".0"))
          | _ => cfg
        let cfg := match jget raw "journal_heartbeat_seconds" with
          | some (JValue.jint n) =>
            setattr cfg "journal_heartbeat_seconds" (PyVal.vint (max n 30))
          | _ => cfg
        let cfg := match jget raw "treat_inhibitor_as_activity" with
          | some (JValue.jbool b) =>
            setattr cfg "treat_inhibitor_as_activity" (PyVal.vbool b)
          | _ => cfg
        let cfg := match jget raw "summary" with
          | some (JValue.jobj summary) =>
            let cfg := match jget summary "daily_target_minutes" with
              | some (JValue.jint n) =>
                if n > 0 then setattr cfg "daily_target_minutes" (PyVal.vint n) else cfg
              | _ => cfg
            match jget summary "week_start" with
            | some (JValue.jstr s) =>
              let sNorm := s.trim.toLower
              if sNorm = "iso" ∨ sNorm = "sunday" then
                setattr cfg "week_start" (PyVal.vstr sNorm)
              else cfg
            | _ => cfg
          | _ => cfg
        Except.ok ⟨fs, cfg, true, created⟩

/-- C9: when the config file is missing, `load_config` with
`create_if_missing` left at its default `True` — and likewise a direct call
of `ensure_default_config_file` — raises `AttributeError` on
`daily_target_minutes` instead of producing a default config, because the
template reads `daily_target_minutes` (and then `week_start`) from a freshly
constructed `Config`, which declares neither field. -/
theorem load_config_missing_file_raises
    (tomlParse : String → Option (List (String × JValue)))
    (fs : String → Option String) (path : String) (h : fs path = none) :
    load_config tomlParse fs path true =
      Except.error (PyError.attributeError "daily_target_minutes") ∧
    ensure_default_config_file fs path =
      Except.error (PyError.attributeError "daily_target_minutes") ∧
    getattr defaultConfigInstance "daily_target_minutes" =
      Except.error (PyError.attributeError "daily_target_minutes") ∧
    getattr defaultConfigInstance "week_start" =
      Except.error (PyError.attributeError "week_start") := by
  have htoml : default_config_toml none =
      Except.error (PyError.attributeError "daily_target_minutes") := rfl
  have hens : ensure_default_config_file fs path =
      Except.error (PyError.attributeError "daily_target_minutes") := by
    unfold ensure_default_config_file
    rw [h, htoml]
  refine ⟨?_, hens, rfl, rfl⟩
  unfold load_config
  rw [if_pos rfl, hens]

/-- C9 witness: on the empty filesystem, loading the default config path with
`create_if_missing = True` raises `AttributeError('daily_target_minutes')`. -/
theorem load_config_missing_file_raises_witness :
    load_config (fun _ => none) (fun _ => none) "/home/u/.config/idle-ledger/config.toml"
        true =
      Except.error (PyError.attributeError "daily_target_minutes") ∧
    ensure_default_config_file (fun _ => none)
        "/home/u/.config/idle-ledger/config.toml" =
      Except.error (PyError.attributeError "daily_target_minutes") := by
  obtain ⟨h1, h2, -, -⟩ := load_config_missing_file_raises (fun _ => none) (fun _ => none)
    "/home/u/.config/idle-ledger/config.toml" rfl
  exact ⟨h1, h2⟩

end IdleLedger
